import Mathlib

/-
Verification of the episode-grouping application (inpatient_finder.py) against its
natural-language specification.

Shallow embedding conventions:
* Timestamps are modelled as `Int`, the number of days since 1970-01-01
  (so 2050-01-01 is day 29220).  Nullable pandas timestamps are `Option Int`
  with `none` playing the role of NaT.
* A data frame is a list of rows; each relevant column is a structure field.
* `patient_df.sort_values("Admit Date")` is modelled with `List.insertionSort`
  (a stable comparison sort; the program never depends on the tie order).
* The nested while loops of `group_patient_records` (source lines 45-66) are
  modelled by `takeEpisode` (the inner loop, lines 54-60) and `assignGroups`
  (the outer loop, lines 50-64).  Both are generic in the row type, the merge
  condition `cond` (line 56: next admit is within threshold of the running end),
  the running-end update `upd` (line 57: max with this discharge) and the
  episode seed `ini` (line 52: the discharge of the first visit), so that the same
  translation serves the date-valued and the nullable (NaT) instantiations.
-/

/-- A visit of one patient: the two date columns used by `group_patient_records`. -/
structure Visit where
  admitDate : Int
  dischargeDate : Int
deriving DecidableEq, Repr

/-- Comparison used by `sort_values("Admit Date")` (line 46). -/
def visitLe (a b : Visit) : Prop := a.admitDate ≤ b.admitDate

instance : DecidableRel visitLe := fun a b => inferInstanceAs (Decidable (_ ≤ _))

instance : IsTotal Visit visitLe := ⟨fun a b => Int.le_total a.admitDate b.admitDate⟩

instance : IsTrans Visit visitLe := ⟨fun _ _ _ h1 h2 => le_trans h1 h2⟩

/-- Inner while loop of `group_patient_records` (lines 54-60): starting from the
running episode end `e`, absorb the consecutive run of visits satisfying the
merge condition, updating the running end on each merge; return the absorbed
members, the final running end, and the remaining visits. -/
def takeEpisode {α σ : Type} (cond : α → σ → Bool) (upd : α → σ → σ) : σ → List α → List α × σ × List α
  | e, [] => ([], e, [])
  | e, v :: vs =>
    if cond v e then
      ((v :: (takeEpisode cond upd (upd v e) vs).1), (takeEpisode cond upd (upd v e) vs).2)
    else ([], e, v :: vs)

/-- The remainder returned by `takeEpisode` is no longer than the input.  (Stated
as a definition because the termination argument of `assignGroups` and
`episodeBlocks` below needs it before the theorem section.) -/
def takeEpisode_rest_le {α σ : Type} (cond : α → σ → Bool) (upd : α → σ → σ) :
    ∀ (l : List α) (e : σ), ((takeEpisode cond upd e l).2.2).length ≤ l.length := by
  intro l
  induction l with
  | nil => intro e; simp [takeEpisode]
  | cons w ws ih =>
    intro e
    rw [takeEpisode]
    split
    · exact le_trans (ih _) (Nat.le_succ _)
    · simp

/-- Outer while loop of `group_patient_records` (lines 50-64): every visit in the
run found by the inner loop receives the current group id, the group counter is
incremented, and the scan resumes at the first visit that did not merge. -/
def assignGroups {α σ : Type} (cond : α → σ → Bool) (upd : α → σ → σ) (ini : α → σ) : Nat → List α → List (α × Nat)
  | _, [] => []
  | g, v :: vs =>
    ((v :: (takeEpisode cond upd (ini v) vs).1).map (fun x => (x, g)))
      ++ assignGroups cond upd ini (g + 1) (takeEpisode cond upd (ini v) vs).2.2
termination_by _ l => l.length
decreasing_by
  exact Nat.lt_succ_of_le (takeEpisode_rest_le cond upd vs (ini v))

/-- The same loop viewed as a single pass: the inner and outer loop fused into
one scan that either keeps the current group id (merge) or starts a new one.
Proved equal to `assignGroups` in `assignGroups_eq_scan` below; used to evaluate
the well-founded definitions on concrete inputs. -/
def mergeScan {α σ : Type} (cond : α → σ → Bool) (upd : α → σ → σ) (ini : α → σ) : Nat → σ → List α → List (α × Nat)
  | _, _, [] => []
  | g, e, v :: vs =>
    if cond v e then (v, g) :: mergeScan cond upd ini g (upd v e) vs
    else (v, g + 1) :: mergeScan cond upd ini (g + 1) (ini v) vs

/-- Single-pass form of the whole grouping of the (already sorted)
visits of one patient; equals `assignGroups _ _ _ 1` by `assignGroups_eq_scan`. -/
def grpScan {α σ : Type} (cond : α → σ → Bool) (upd : α → σ → σ) (ini : α → σ) : List α → List (α × Nat)
  | [] => []
  | v :: vs => (v, 1) :: mergeScan cond upd ini 1 (ini v) vs

/-- Number of episode starts after the first visit (a counting view of the same
scan, used to relate episode counts for different thresholds). -/
def countNew {α σ : Type} (cond : α → σ → Bool) (upd : α → σ → σ) (ini : α → σ) : σ → List α → Nat
  | _, [] => 0
  | e, v :: vs =>
    if cond v e then countNew cond upd ini (upd v e) vs
    else 1 + countNew cond upd ini (ini v) vs

/-- The partition of a (sorted) visit list into the runs found by the outer
loop: the list of episodes as lists of member visits, in order. -/
def episodeBlocks {α σ : Type} (cond : α → σ → Bool) (upd : α → σ → σ) (ini : α → σ) : List α → List (List α)
  | [] => []
  | v :: vs =>
    (v :: (takeEpisode cond upd (ini v) vs).1)
      :: episodeBlocks cond upd ini (takeEpisode cond upd (ini v) vs).2.2
termination_by l => l.length
decreasing_by
  exact Nat.lt_succ_of_le (takeEpisode_rest_le cond upd vs (ini v))

/-- Merge condition of line 56: `next_admit <= group_end + timedelta(days=days_threshold)`. -/
def admitWithin (t : Int) (v : Visit) (e : Int) : Bool := decide (v.admitDate ≤ e + t)

/-- Running-end update of line 57: `group_end = max(group_end, discharge)`. -/
def bumpEnd (v : Visit) (e : Int) : Int := max e v.dischargeDate

/-- Episode seed of line 52: `group_end = patient_df.loc[i, "Discharge Date"]`. -/
def initEnd (v : Visit) : Int := v.dischargeDate

/-- Source function `group_patient_records(patient_df, days_threshold)` (lines 45-66): sort one
visits of one patient by admit date and assign each visit an episode (group) id
starting from 1. -/
def group_patient_records (t : Int) (l : List Visit) : List (Visit × Nat) :=
  assignGroups (admitWithin t) bumpEnd initEnd 1 (List.insertionSort visitLe l)

/-- Modelled from the spec, section 4.2, Policy A (closed-interval merge), for the
refinement claim C1: walking the admit-sorted visits, "merge into current episode
if admit <= running_end + threshold; on merge, running_end = max(running_end,
this discharge)"; every visit in a merged run gets the same episode id and the id
increments when a new episode starts. -/
def policyAAux (t : Int) : Nat → Int → List Visit → List (Visit × Nat)
  | _, _, [] => []
  | g, runEnd, v :: vs =>
    if v.admitDate ≤ runEnd + t then
      (v, g) :: policyAAux t g (max runEnd v.dischargeDate) vs
    else
      (v, g + 1) :: policyAAux t (g + 1) v.dischargeDate vs

/-- Modelled from the spec, section 4.2, Policy A: the first (sorted) visit opens
episode 1 with its own discharge as the running end. -/
def policyA (t : Int) : List Visit → List (Visit × Nat)
  | [] => []
  | v :: vs => (v, 1) :: policyAAux t 1 v.dischargeDate vs

/-- Maximum of a list of dates (`transform("max")` over a non-empty group). -/
def listMax : List Int → Int
  | [] => 0
  | x :: xs => xs.foldl max x

/-- The episode blocks of the visit list of one patient (sorted first, as the source
does). -/
def visitBlocks (t : Int) (l : List Visit) : List (List Visit) :=
  episodeBlocks (admitWithin t) bumpEnd initEnd (List.insertionSort visitLe l)

/-- Per-patient view of the reduction (lines 110-122): the span of each episode,
(earliest admit = the first member of the block, max discharge over members =
the "Group Discharge Date" of lines 110-113). -/
def episodeSpans (t : Int) (l : List Visit) : List (Int × Int) :=
  (visitBlocks t l).filterMap
    (fun b => b.head?.map (fun v => (v.admitDate, listMax (b.map Visit.dischargeDate))))

/-- Per-patient view of the representative rows kept by lines 115-120: sort by
(patient, group, admit) and keep the first row of each group, i.e. the head of
each episode block, carrying its own discharge date. -/
def reducedVisits (t : Int) (l : List Visit) : List Visit :=
  (visitBlocks t l).filterMap List.head?

/-- Structural twin of `episodeSpans` on an already-sorted tail (running episode
start `s` and running end `e`); equals the block-based definition by
`episodeSpans_eq_scan`. -/
def spanScan (t : Int) : Int → Int → List Visit → List (Int × Int)
  | s, e, [] => [(s, e)]
  | s, e, v :: vs =>
    if admitWithin t v e then spanScan t s (bumpEnd v e) vs
    else (s, e) :: spanScan t v.admitDate v.dischargeDate vs

/-- Structural twin of the tail of `reducedVisits`; equals the block-based
definition by `reducedVisits_eq_scan`. -/
def headScan (t : Int) : Int → List Visit → List Visit
  | _, [] => []
  | e, v :: vs =>
    if admitWithin t v e then headScan t (bumpEnd v e) vs
    else v :: headScan t v.dischargeDate vs

/-- Consecutive separation of an (admit-sorted) visit list: the admit date of
each next visit falls strictly more than the threshold after the discharge date
of the previous visit. -/
def sepCheck (t : Int) : List Visit → Bool
  | [] => true
  | [_] => true
  | a :: b :: r => (!(admitWithin t b a.dischargeDate)) && sepCheck t (b :: r)

/-- 2050-01-01 (the far-future sentinel of line 16), as days since 1970-01-01. -/
def sentinel2050 : Int := 29220

/-- A raw input row before normalization: nullable admit and discharge dates and
the "Patient Class" column. -/
structure VRow where
  admitDate : Option Int
  dischargeDate : Option Int
  patientClass : String
deriving DecidableEq, Repr

/-- Source function `fill_missing_discharge_dates` (lines 11-17): on the rows whose discharge is
missing, class "O" copies the admit date and class "I" sets the sentinel
2050-01-01; all other rows are unchanged.  (The two masks of lines 13 and 15 are
computed from the same initial missing-discharge mask and are disjoint because a
row has a single class, so the two `.loc` assignments act per row exactly as
this conditional does.) -/
def fill_missing_discharge_dates (rows : List VRow) : List VRow :=
  rows.map (fun r =>
    if r.dischargeDate.isNone && (r.patientClass == "O") then
      { r with dischargeDate := r.admitDate }
    else if r.dischargeDate.isNone && (r.patientClass == "I") then
      { r with dischargeDate := some sentinel2050 }
    else r)

/-- Source function `load_data` (lines 19-27) after parsing: drop rows whose admit date is null
(`dropna(subset=["Admit Date"])`, line 25), then fill missing discharge dates
(line 26). -/
def load_data (rows : List VRow) : List VRow :=
  fill_missing_discharge_dates (rows.filter (fun r => r.admitDate.isSome))

/-- Model of the Python method `str.strip()` on the underlying character list: drop whitespace
from the front, then from the back. -/
def stripChars (l : List Char) : List Char :=
  (((l.dropWhile Char.isWhitespace).reverse).dropWhile Char.isWhitespace).reverse

/-- Model of the Python method `str.strip()`. -/
def pyStrip (s : String) : String := ⟨stripChars s.data⟩

/-- The lookup table `known_invalids_for_CA` of lines 32-42. -/
def known_invalids_for_CA : List (String × String) :=
  [("Zug", "International"), ("Sao Paulo", "International"), ("Paris", "International"),
   ("Dededo", "GU"), ("Agat", "GU"), ("Yigo", "GU"), ("Hagatna", "GU"),
   ("Lio Lio", "AS"), ("Saipan", "MP")]

/-- Source function `correct_patient_state` (lines 29-43): return any value whose stripped form
is not "CA" unchanged; otherwise look the stripped value up in the table with
default "CA" (`dict.get(key, "CA")`). -/
def correct_patient_state (state : String) : String :=
  if pyStrip state ≠ "CA" then state
  else (((known_invalids_for_CA.find? (fun p => p.1 == pyStrip state)).map Prod.snd).getD ("CA"))

/-- NaT-aware `<=` of pandas timestamps: any comparison with NaT is false. -/
def tsLe (a b : Option Int) : Bool :=
  match a, b with
  | some x, some y => decide (x ≤ y)
  | _, _ => false

/-- NaT-aware `>`: any comparison with NaT is false. -/
def tsGt (a b : Option Int) : Bool :=
  match a, b with
  | some x, some y => decide (y < x)
  | _, _ => false

/-- NaT + timedelta: NaT propagates. -/
def tsAdd (e : Option Int) (t : Int) : Option Int := e.map (· + t)

/-- The Python builtin `max(e, d)` on nullable timestamps: returns `d` exactly when
`d > e`, which is never the case when either side is NaT. -/
def tsMax (e d : Option Int) : Option Int := if tsGt d e then d else e

/-- Sort comparison on nullable admit dates (`na_position="last"`). -/
def vrAdmitLe (a b : VRow) : Bool :=
  match a.admitDate, b.admitDate with
  | some x, some y => decide (x ≤ y)
  | none, _ => false
  | some _, none => true

/-- Merge condition of line 56 on nullable dates. -/
def vrCond (t : Int) (v : VRow) (e : Option Int) : Bool := tsLe v.admitDate (tsAdd e t)

/-- Running-end update of line 57 on nullable dates. -/
def vrUpd (v : VRow) (e : Option Int) : Option Int := tsMax e v.dischargeDate

/-- Episode seed of line 52 on nullable dates. -/
def vrInit (v : VRow) : Option Int := v.dischargeDate

/-- The behaviour of `group_patient_records` on rows whose date columns may still be
null (pandas NaT semantics for the comparisons of lines 52-57). -/
def group_patient_records_na (t : Int) (l : List VRow) : List (VRow × Nat) :=
  assignGroups (vrCond t) vrUpd vrInit 1 (List.insertionSort (fun a b => vrAdmitLe a b = true) l)

/-- A post-load row of the module-level pipeline: medical record number, the two
dates, "Patient Type" and "Patient State". -/
structure Row where
  mrn : Nat
  admitDate : Int
  dischargeDate : Int
  patientType : String
  patientState : String
deriving DecidableEq, Repr

/-- Comparison used by `sort_values("Admit Date")` inside the per-patient apply. -/
def rowAdmitLe (a b : Row) : Prop := a.admitDate ≤ b.admitDate

instance : DecidableRel rowAdmitLe := fun a b => inferInstanceAs (Decidable (_ ≤ _))

/-- Merge condition of line 56 for pipeline rows. -/
def rowCond (t : Int) (v : Row) (e : Int) : Bool := decide (v.admitDate ≤ e + t)

/-- Running-end update of line 57 for pipeline rows. -/
def rowUpd (v : Row) (e : Int) : Int := max e v.dischargeDate

/-- Episode seed of line 52 for pipeline rows. -/
def rowInit (v : Row) : Int := v.dischargeDate

/-- The function `group_patient_records` applied to a slice of pipeline rows. -/
def group_patient_records_row (t : Int) (l : List Row) : List (Row × Nat) :=
  assignGroups (rowCond t) rowUpd rowInit 1 (List.insertionSort rowAdmitLe l)

/-- The distinct medical record numbers in ascending order (pandas `groupby`
sorts its keys). -/
def mrnsSorted (rows : List Row) : List Nat :=
  List.insertionSort (· ≤ ·) (rows.map (fun r => r.mrn)).dedup

/-- Pipeline step `df.groupby("Medical Record #", group_keys=False).apply(lambda df:
group_patient_records(df, days_threshold))` (lines 93-95 and 104-106): group the
rows of each patient independently and concatenate in key order. -/
def groupby_apply (t : Int) (rows : List Row) : List (Row × Nat) :=
  (mrnsSorted rows).flatMap
    (fun m => group_patient_records_row t (rows.filter (fun r => decide (r.mrn = m))))

/-- Line 78: the threshold is fixed at 20 days. -/
def days_threshold : Int := 20

/-- The module-level pipeline through line 109: drop telemedicine rows, correct
patient states, split CA/non-CA and CA inpatient/non-inpatient, group the CA
inpatients and the non-CA rows per patient, number the CA non-inpatients
1..n over the whole frame (line 99), and concatenate. -/
def pipeline_grouped (rows : List Row) : List (Row × Nat) :=
  let df := (rows.filter (fun r => !(r.patientType == "Telemedicine"))).map
      (fun r => { r with patientState := correct_patient_state r.patientState })
  let ca_df := df.filter (fun r => r.patientState == "CA")
  let non_ca_df := df.filter (fun r => !(r.patientState == "CA"))
  let ca_inpatients := ca_df.filter (fun r => r.patientType == "Inpatient")
  let ca_non_inpatients := ca_df.filter (fun r => !(r.patientType == "Inpatient"))
  let grouped_inpatients := groupby_apply days_threshold ca_inpatients
  let ca_non_numbered := ca_non_inpatients.enum.map (fun p => (p.2, p.1 + 1))
  let grouped_non_ca := groupby_apply days_threshold non_ca_df
  (grouped_inpatients ++ ca_non_numbered) ++ grouped_non_ca

/-- The groupby key of lines 111 and 118: ("Medical Record #", "Group"). -/
def rkey (p : Row × Nat) : Nat × Nat := (p.1.mrn, p.2)

/-- Lines 110-113: attach to every row the maximum discharge date over the rows
sharing its (mrn, group) key (`groupby(...)["Discharge Date"].transform("max")`). -/
def addGroupDischarge (rows : List (Row × Nat)) : List ((Row × Nat) × Int) :=
  rows.map (fun p =>
    (p, listMax ((rows.filter (fun q => decide (rkey q = rkey p))).map (fun q => q.1.dischargeDate))))

/-- The sort key of line 117: by medical record number, then group, then admit. -/
def redLe (a b : (Row × Nat) × Int) : Prop :=
  a.1.1.mrn < b.1.1.mrn ∨
    (a.1.1.mrn = b.1.1.mrn ∧
      (a.1.2 < b.1.2 ∨ (a.1.2 = b.1.2 ∧ a.1.1.admitDate ≤ b.1.1.admitDate)))

instance : DecidableRel redLe := fun a b => by unfold redLe; infer_instance

instance : IsTotal ((Row × Nat) × Int) redLe := ⟨by intro a b; unfold redLe; omega⟩

instance : IsTrans ((Row × Nat) × Int) redLe := ⟨by intro a b c; unfold redLe; omega⟩

/-- Lines 115-120: sort by (mrn, group, admit) and keep the first row of every
(mrn, group) key (`groupby([...], as_index=False).first()`, keys in sorted
order). -/
def reduceRows (rows : List ((Row × Nat) × Int)) : List ((Row × Nat) × Int) :=
  ((List.insertionSort redLe rows).map (fun p => rkey p.1)).dedup.filterMap
    (fun k => (List.insertionSort redLe rows).find? (fun p => decide (rkey p.1 = k)))

/-- Pipeline table `df_result` (line 122, with `not_grouped` empty since every row receives a
group): the reduced table. -/
def df_result (rows : List Row) : List ((Row × Nat) × Int) :=
  reduceRows (addGroupDischarge (pipeline_grouped rows))

/-- Lines 130-133: keep the rows with `Admit Date <= chosen_date` and
`Group Discharge Date >= chosen_date`. -/
def filter_by_date (rows : List ((Row × Nat) × Int)) (d : Int) : List ((Row × Nat) × Int) :=
  rows.filter (fun p => decide (p.1.1.admitDate ≤ d) && decide (p.2 ≥ d))

/-! ### Generic facts about the loop translation -/

theorem takeEpisode_split {α σ : Type} (cond : α → σ → Bool) (upd : α → σ → σ) :
    ∀ (l : List α) (e : σ), (takeEpisode cond upd e l).1 ++ (takeEpisode cond upd e l).2.2 = l := by
  intro l
  induction l with
  | nil => intro e; simp [takeEpisode]
  | cons w ws ih =>
    intro e
    rw [takeEpisode]
    split
    · simpa using ih _
    · simp

theorem takeEpisode_rest_head {α σ : Type} (cond : α → σ → Bool) (upd : α → σ → σ) :
    ∀ (l : List α) (e : σ) (w : α) (ws : List α),
      (takeEpisode cond upd e l).2.2 = w :: ws → cond w (takeEpisode cond upd e l).2.1 = false := by
  intro l
  induction l with
  | nil => intro e w ws h; simp [takeEpisode] at h
  | cons v vs ih =>
    intro e w ws h
    rw [takeEpisode] at h ⊢
    split at h
    · rename_i hc
      rw [if_pos hc]
      exact ih _ w ws h
    · rename_i hc
      rw [if_neg hc]
      simp only [Prod.mk.injEq] at h
      obtain ⟨rfl, -⟩ := List.cons.inj h
      simpa using hc

theorem assignGroups_cons_scan {α σ : Type} (cond : α → σ → Bool) (upd : α → σ → σ) (ini : α → σ) :
    ∀ (l : List α) (g : Nat) (e : σ),
      ((takeEpisode cond upd e l).1.map (fun x => (x, g)))
          ++ assignGroups cond upd ini (g + 1) (takeEpisode cond upd e l).2.2
        = mergeScan cond upd ini g e l := by
  intro l
  induction l with
  | nil => intro g e; simp [takeEpisode, assignGroups, mergeScan]
  | cons v vs ih =>
    intro g e
    rw [takeEpisode, mergeScan]
    split
    · simpa using ih g (upd v e)
    · simp only [List.map_nil, List.nil_append]
      rw [assignGroups]
      have := ih (g + 1) (ini v)
      simpa using this

theorem assignGroups_eq_scan {α σ : Type} (cond : α → σ → Bool) (upd : α → σ → σ) (ini : α → σ) :
    ∀ (l : List α), assignGroups cond upd ini 1 l = grpScan cond upd ini l := by
  intro l
  cases l with
  | nil => rw [assignGroups, grpScan]
  | cons v vs =>
    rw [assignGroups, grpScan]
    have := assignGroups_cons_scan cond upd ini vs 1 (ini v)
    simpa using this

theorem mergeScan_fst {α σ : Type} (cond : α → σ → Bool) (upd : α → σ → σ) (ini : α → σ) :
    ∀ (l : List α) (g : Nat) (e : σ), (mergeScan cond upd ini g e l).map Prod.fst = l := by
  intro l
  induction l with
  | nil => intro g e; simp [mergeScan]
  | cons v vs ih =>
    intro g e
    rw [mergeScan]
    split
    · simpa using ih g (upd v e)
    · simpa using ih (g + 1) (ini v)

theorem grpScan_fst {α σ : Type} (cond : α → σ → Bool) (upd : α → σ → σ) (ini : α → σ) :
    ∀ (l : List α), (grpScan cond upd ini l).map Prod.fst = l := by
  intro l
  cases l with
  | nil => simp [grpScan]
  | cons v vs =>
    rw [grpScan]
    simpa using mergeScan_fst cond upd ini vs 1 (ini v)

theorem mergeScan_snd_ge {α σ : Type} (cond : α → σ → Bool) (upd : α → σ → σ) (ini : α → σ) :
    ∀ (l : List α) (g : Nat) (e : σ) (p : α × Nat), p ∈ mergeScan cond upd ini g e l → g ≤ p.2 := by
  intro l
  induction l with
  | nil => intro g e p h; simp [mergeScan] at h
  | cons v vs ih =>
    intro g e p h
    rw [mergeScan] at h
    split at h
    · rcases List.mem_cons.mp h with h | h
      · subst h; exact le_refl g
      · exact ih g (upd v e) p h
    · rcases List.mem_cons.mp h with h | h
      · subst h; exact Nat.le_succ g
      · exact le_trans (Nat.le_succ g) (ih (g + 1) (ini v) p h)

theorem countNew_rest {α σ : Type} (cond : α → σ → Bool) (upd : α → σ → σ) (ini : α → σ) :
    ∀ (l : List α) (e : σ),
      countNew cond upd ini e l =
        (match (takeEpisode cond upd e l).2.2 with
          | [] => 0
          | w :: ws => 1 + countNew cond upd ini (ini w) ws) := by
  intro l
  induction l with
  | nil => intro e; simp [countNew, takeEpisode]
  | cons v vs ih =>
    intro e
    rw [countNew, takeEpisode]
    split
    · simpa using ih _
    · simp

theorem mergeScan_snd_toFinset {α σ : Type} (cond : α → σ → Bool) (upd : α → σ → σ) (ini : α → σ) :
    ∀ (l : List α) (g : Nat) (e : σ),
      insert g ((mergeScan cond upd ini g e l).map Prod.snd).toFinset
        = Finset.Icc g (g + countNew cond upd ini e l) := by
  intro l
  induction l with
  | nil => intro g e; simp [mergeScan, countNew]
  | cons v vs ih =>
    intro g e
    rw [mergeScan, countNew]
    split
    · simpa using ih g (upd v e)
    · have h := ih (g + 1) (ini v)
      simp only [List.map_cons, List.toFinset_cons]
      rw [h]
      ext x
      simp only [Finset.mem_insert, Finset.mem_Icc]
      omega

theorem grpScan_card {α σ : Type} (cond : α → σ → Bool) (upd : α → σ → σ) (ini : α → σ) :
    ∀ (l : List α),
      ((grpScan cond upd ini l).map Prod.snd).toFinset.card =
        (match l with | [] => 0 | v :: vs => countNew cond upd ini (ini v) vs + 1) := by
  intro l
  cases l with
  | nil => simp [grpScan]
  | cons v vs =>
    rw [grpScan]
    simp only [List.map_cons, List.toFinset_cons]
    rw [mergeScan_snd_toFinset cond upd ini vs 1 (ini v)]
    rw [Nat.card_Icc]
    omega

/-! ### Facts about the episode blocks -/

theorem episodeBlocks_join {α σ : Type} (cond : α → σ → Bool) (upd : α → σ → σ) (ini : α → σ) :
    ∀ (l : List α), (episodeBlocks cond upd ini l).flatten = l := by
  intro l
  induction l using episodeBlocks.induct cond upd ini with
  | case1 => rw [episodeBlocks]; rfl
  | case2 v vs ih =>
    rw [episodeBlocks]
    simp only [List.flatten_cons, ih]
    simpa using takeEpisode_split cond upd vs (ini v)

theorem episodeBlocks_ne_nil {α σ : Type} (cond : α → σ → Bool) (upd : α → σ → σ) (ini : α → σ) :
    ∀ (l : List α) (b : List α), b ∈ episodeBlocks cond upd ini l → b ≠ [] := by
  intro l
  induction l using episodeBlocks.induct cond upd ini with
  | case1 => intro b hb; rw [episodeBlocks] at hb; simp at hb
  | case2 v vs ih =>
    intro b hb
    rw [episodeBlocks] at hb
    rcases List.mem_cons.mp hb with h | h
    · subst h; simp
    · exact ih b h

theorem episodeBlocks_heads_sublist {α σ : Type} (cond : α → σ → Bool) (upd : α → σ → σ) (ini : α → σ) :
    ∀ (l : List α), ((episodeBlocks cond upd ini l).filterMap List.head?).Sublist l := by
  intro l
  induction l using episodeBlocks.induct cond upd ini with
  | case1 => rw [episodeBlocks]; simp
  | case2 v vs ih =>
    rw [episodeBlocks]
    simp only [List.filterMap_cons, List.head?_cons]
    refine List.Sublist.cons₂ v ?_
    refine List.Sublist.trans ih ?_
    have hsplit := takeEpisode_split cond upd vs (ini v)
    have h2 := List.sublist_append_right (takeEpisode cond upd (ini v) vs).1
      (takeEpisode cond upd (ini v) vs).2.2
    rwa [hsplit] at h2

/-! ### Facts specific to the date-valued instantiation -/

theorem takeEpisode_end_ge (t : Int) :
    ∀ (l : List Visit) (e : Int), e ≤ (takeEpisode (admitWithin t) bumpEnd e l).2.1 := by
  intro l
  induction l with
  | nil => intro e; simp [takeEpisode]
  | cons v vs ih =>
    intro e
    rw [takeEpisode]
    split
    · exact le_trans (le_max_left e v.dischargeDate) (ih (bumpEnd v e))
    · simp

theorem takeEpisode_end_foldl (t : Int) :
    ∀ (l : List Visit) (e : Int),
      (takeEpisode (admitWithin t) bumpEnd e l).2.1 =
        List.foldl max e (((takeEpisode (admitWithin t) bumpEnd e l).1).map Visit.dischargeDate) := by
  intro l
  induction l with
  | nil => intro e; simp [takeEpisode]
  | cons v vs ih =>
    intro e
    rw [takeEpisode]
    split
    · simpa using ih (bumpEnd v e)
    · simp

theorem countNew_mono (t1 t2 : Int) (ht : t1 ≤ t2) :
    ∀ (l : List Visit) (e1 e2 : Int), e1 ≤ e2 →
      countNew (admitWithin t2) bumpEnd initEnd e2 l ≤ countNew (admitWithin t1) bumpEnd initEnd e1 l := by
  intro l
  induction l with
  | nil => intro e1 e2 he; simp [countNew]
  | cons v vs ih =>
    intro e1 e2 he
    rw [countNew, countNew]
    by_cases h2 : admitWithin t2 v e2 = true
    · rw [if_pos h2]
      by_cases h1 : admitWithin t1 v e1 = true
      · rw [if_pos h1]
        exact ih (bumpEnd v e1) (bumpEnd v e2) (max_le_max he le_rfl)
      · rw [if_neg h1]
        refine le_trans (ih (initEnd v) (bumpEnd v e2) (le_max_right _ _)) ?_
        omega
    · have h1 : admitWithin t1 v e1 = false := by
        simp only [admitWithin, decide_eq_true_eq] at h2 ⊢
        simp only [decide_eq_false_iff_not]
        omega
      rw [if_neg h2, if_neg (by simp [h1])]
      have := ih (initEnd v) (initEnd v) le_rfl
      omega

/-! ### Bridges between the block view and the single-pass view -/

theorem spanScan_blocks (t : Int) :
    ∀ (l : List Visit) (s e : Int),
      spanScan t s e l =
        (s, (takeEpisode (admitWithin t) bumpEnd e l).2.1)
          :: (episodeBlocks (admitWithin t) bumpEnd initEnd
                (takeEpisode (admitWithin t) bumpEnd e l).2.2).filterMap
              (fun b => b.head?.map (fun v => (v.admitDate, listMax (b.map Visit.dischargeDate)))) := by
  intro l
  induction l with
  | nil => intro s e; simp [spanScan, takeEpisode, episodeBlocks]
  | cons v vs ih =>
    intro s e
    by_cases h : admitWithin t v e = true
    · rw [spanScan, takeEpisode]
      simp only [if_pos h]
      exact ih s (bumpEnd v e)
    · rw [spanScan, takeEpisode]
      simp only [if_neg h]
      rw [episodeBlocks]
      simp only [List.filterMap_cons, List.head?_cons, Option.map_some, initEnd]
      rw [ih v.admitDate v.dischargeDate]
      have hmax : listMax ((v :: (takeEpisode (admitWithin t) bumpEnd v.dischargeDate vs).1).map
          Visit.dischargeDate) = (takeEpisode (admitWithin t) bumpEnd v.dischargeDate vs).2.1 := by
        rw [takeEpisode_end_foldl t vs v.dischargeDate]
        simp [listMax]
      rw [hmax]
      rfl

theorem episodeSpans_eq_scan (t : Int) (l : List Visit) :
    episodeSpans t l =
      (match List.insertionSort visitLe l with
        | [] => []
        | v :: vs => spanScan t v.admitDate v.dischargeDate vs) := by
  rw [episodeSpans, visitBlocks]
  cases hs : List.insertionSort visitLe l with
  | nil => rw [episodeBlocks]; rfl
  | cons v vs =>
    rw [episodeBlocks]
    simp only [List.filterMap_cons, List.head?_cons, Option.map_some, initEnd]
    rw [spanScan_blocks t vs v.admitDate v.dischargeDate]
    have hmax : listMax ((v :: (takeEpisode (admitWithin t) bumpEnd v.dischargeDate vs).1).map
        Visit.dischargeDate) = (takeEpisode (admitWithin t) bumpEnd v.dischargeDate vs).2.1 := by
      rw [takeEpisode_end_foldl t vs v.dischargeDate]
      simp [listMax]
    rw [hmax]
    rfl

theorem headScan_blocks (t : Int) :
    ∀ (l : List Visit) (e : Int),
      headScan t e l =
        (episodeBlocks (admitWithin t) bumpEnd initEnd
          (takeEpisode (admitWithin t) bumpEnd e l).2.2).filterMap List.head? := by
  intro l
  induction l with
  | nil => intro e; simp [headScan, takeEpisode, episodeBlocks]
  | cons v vs ih =>
    intro e
    by_cases h : admitWithin t v e = true
    · rw [headScan, takeEpisode]
      simp only [if_pos h]
      exact ih (bumpEnd v e)
    · rw [headScan, takeEpisode]
      simp only [if_neg h]
      rw [episodeBlocks]
      simp only [List.filterMap_cons, List.head?_cons, initEnd]
      rw [ih v.dischargeDate]

theorem reducedVisits_eq_scan (t : Int) (l : List Visit) :
    reducedVisits t l =
      (match List.insertionSort visitLe l with
        | [] => []
        | v :: vs => v :: headScan t v.dischargeDate vs) := by
  rw [reducedVisits, visitBlocks]
  cases hs : List.insertionSort visitLe l with
  | nil => rw [episodeBlocks]; rfl
  | cons v vs =>
    rw [episodeBlocks]
    simp only [List.filterMap_cons, List.head?_cons, initEnd]
    rw [headScan_blocks t vs v.dischargeDate]

theorem mergeScan_policyA (t : Int) :
    ∀ (l : List Visit) (g : Nat) (e : Int),
      mergeScan (admitWithin t) bumpEnd initEnd g e l = policyAAux t g e l := by
  intro l
  induction l with
  | nil => intro g e; rw [mergeScan, policyAAux]
  | cons v vs ih =>
    intro g e
    rw [mergeScan, policyAAux]
    by_cases h : v.admitDate ≤ e + t
    · rw [if_pos (by simpa [admitWithin] using h), if_pos h]
      rw [ih g (bumpEnd v e)]
      rfl
    · rw [if_neg (by simpa [admitWithin] using h), if_neg h]
      rw [ih (g + 1) (initEnd v)]
      rfl

theorem group_patient_records_eq_scan (t : Int) (l : List Visit) :
    group_patient_records t l =
      grpScan (admitWithin t) bumpEnd initEnd (List.insertionSort visitLe l) := by
  rw [group_patient_records, assignGroups_eq_scan]

theorem group_patient_records_row_eq_scan (t : Int) (l : List Row) :
    group_patient_records_row t l =
      grpScan (rowCond t) rowUpd rowInit (List.insertionSort rowAdmitLe l) := by
  rw [group_patient_records_row, assignGroups_eq_scan]

theorem group_patient_records_na_eq_scan (t : Int) (l : List VRow) :
    group_patient_records_na t l =
      grpScan (vrCond t) vrUpd vrInit (List.insertionSort (fun a b => vrAdmitLe a b = true) l) := by
  rw [group_patient_records_na, assignGroups_eq_scan]

/-! ### Separation of consecutive episode heads -/

theorem heads_sepCheck (t : Int) :
    ∀ (l : List Visit),
      sepCheck t ((episodeBlocks (admitWithin t) bumpEnd initEnd l).filterMap List.head?) = true := by
  intro l
  induction l using episodeBlocks.induct (admitWithin t) bumpEnd initEnd with
  | case1 => rw [episodeBlocks]; rfl
  | case2 v vs ih =>
    rw [episodeBlocks]
    simp only [List.filterMap_cons, List.head?_cons]
    cases hr : (takeEpisode (admitWithin t) bumpEnd (initEnd v) vs).2.2 with
    | nil =>
      rw [episodeBlocks]
      rfl
    | cons w ws =>
      rw [hr] at ih
      rw [episodeBlocks] at ih ⊢
      simp only [List.filterMap_cons, List.head?_cons] at ih ⊢
      rw [sepCheck]
      rw [ih]
      have hfail := takeEpisode_rest_head (admitWithin t) bumpEnd vs (initEnd v) w ws hr
      have hge := takeEpisode_end_ge t vs (initEnd v)
      have hge2 : v.dischargeDate ≤ (takeEpisode (admitWithin t) bumpEnd (initEnd v) vs).2.1 := hge
      have hw : admitWithin t w v.dischargeDate = false := by
        simp only [admitWithin, decide_eq_false_iff_not] at hfail ⊢
        omega
      rw [hw]
      rfl

theorem sepCheck_blocks_singleton (t : Int) :
    ∀ (l : List Visit), sepCheck t l = true →
      episodeBlocks (admitWithin t) bumpEnd initEnd l = l.map (fun v => [v]) := by
  intro l
  induction l with
  | nil => intro h; rw [episodeBlocks]; rfl
  | cons a l' ih =>
    intro h
    cases l' with
    | nil =>
      rw [episodeBlocks]
      simp [takeEpisode, episodeBlocks]
    | cons b r =>
      rw [sepCheck] at h
      simp only [Bool.and_eq_true, Bool.not_eq_true'] at h
      obtain ⟨h1, h2⟩ := h
      rw [episodeBlocks]
      have htk : takeEpisode (admitWithin t) bumpEnd (initEnd a) (b :: r) = ([], initEnd a, b :: r) := by
        rw [takeEpisode]
        rw [if_neg (by simpa only [initEnd] using (by simp [h1] : ¬ admitWithin t b a.dischargeDate = true))]
      rw [htk]
      simp only [List.map_cons]
      rw [ih h2]
      simp

theorem blocks_spans_shape :
    ∀ (bs : List (List Visit)), (∀ b ∈ bs, b ≠ []) →
      ((bs.filterMap
          (fun b => b.head?.map (fun v => (v.admitDate, listMax (b.map Visit.dischargeDate))))).map Prod.fst
        = (bs.filterMap List.head?).map Visit.admitDate)
      ∧ (bs.filterMap
          (fun b => b.head?.map (fun v => (v.admitDate, listMax (b.map Visit.dischargeDate))))).length
        = (bs.filterMap List.head?).length := by
  intro bs
  induction bs with
  | nil => intro hne; simp
  | cons b bs' ih =>
    intro hne
    have hb : b ≠ [] := hne b (List.mem_cons_self b bs')
    obtain ⟨w, ms, rfl⟩ := List.exists_cons_of_ne_nil hb
    have ih' := ih (fun c hc => hne c (List.mem_cons_of_mem _ hc))
    simp only [List.filterMap_cons, List.head?_cons, Option.map_some']
    simp only [List.map_cons]
    exact ⟨by rw [ih'.1], by rw [List.length_cons, List.length_cons, ih'.2]⟩

/-! ### Further helper lemmas -/

theorem sep_mergeScan_snd (t : Int) :
    ∀ (vs : List Visit) (v : Visit) (g : Nat), sepCheck t (v :: vs) = true →
      (mergeScan (admitWithin t) bumpEnd initEnd g (initEnd v) vs).map Prod.snd
        = List.range' (g + 1) vs.length := by
  intro vs
  induction vs with
  | nil => intro v g h; simp [mergeScan]
  | cons w ws ih =>
    intro v g h
    rw [sepCheck] at h
    simp only [Bool.and_eq_true, Bool.not_eq_true'] at h
    obtain ⟨h1, h2⟩ := h
    rw [mergeScan]
    rw [if_neg (by simpa only [initEnd] using (by simp [h1] : ¬ admitWithin t w v.dischargeDate = true))]
    simp only [List.map_cons]
    rw [ih w (g + 1) h2]
    rw [List.length_cons, List.range'_succ]

theorem zip_map_snd {α β : Type} (f : α → β) :
    ∀ (l : List α) (p : α × β), p ∈ l.zip (l.map f) → p.2 = f p.1 := by
  intro l
  induction l with
  | nil => intro p hp; simp at hp
  | cons a as ih =>
    intro p hp
    simp only [List.map_cons, List.zip_cons_cons, List.mem_cons] at hp
    rcases hp with hp | hp
    · subst hp; rfl
    · exact ih p hp

theorem filterMap_some_eq_map {α β : Type} (f : α → β) :
    ∀ (l : List α), l.filterMap (fun x => some (f x)) = l.map f := by
  intro l
  induction l with
  | nil => rfl
  | cons a as ih => simp only [List.filterMap_cons, List.map_cons, ih]

/-! ### The claims -/

/-- Claim C1: for the visit list of every single patient and every gap threshold,
`group_patient_records` sorts the visits by admit date ascending (its output
visits are an admit-sorted permutation of the input) and assigns episode ids
exactly as Policy A of the spec describes: a subsequent visit merges into the
current episode iff its admit date is at most the running episode end plus the
threshold, the running end being updated on each merge to the maximum discharge
seen so far (`policyA` is the spec-modelled scan).  In particular, for visits
A(admit=Jan 1, discharge=Jan 30) and B(admit=Jan 5, discharge=Jan 10), as day
numbers 1, 30, 5, 10, with threshold 20, both visits receive episode id 1 and
the episode spans day 1 to day 30. -/
theorem C1_group_patient_records_policyA (t : Int) (l : List Visit) :
    group_patient_records t l = policyA t (List.insertionSort visitLe l)
    ∧ ((group_patient_records t l).map Prod.fst).Sorted visitLe
    ∧ ((group_patient_records t l).map Prod.fst).Perm l
    ∧ group_patient_records 20 [⟨1, 30⟩, ⟨5, 10⟩] = [(⟨1, 30⟩, 1), (⟨5, 10⟩, 1)]
    ∧ episodeSpans 20 [⟨1, 30⟩, ⟨5, 10⟩] = [(1, 30)] := by
  refine ⟨?_, ?_, ?_, ?_, ?_⟩
  · rw [group_patient_records_eq_scan]
    cases hs : List.insertionSort visitLe l with
    | nil => rw [grpScan, policyA]
    | cons v vs =>
      rw [grpScan, policyA]
      rw [mergeScan_policyA]
      rfl
  · rw [group_patient_records_eq_scan, grpScan_fst]
    exact List.sorted_insertionSort visitLe l
  · rw [group_patient_records_eq_scan, grpScan_fst]
    exact List.perm_insertionSort visitLe l
  · rw [group_patient_records_eq_scan]
    decide
  · rw [episodeSpans_eq_scan]
    decide

/-- Claim C2 (the code deviates): `correct_patient_state` returns every value
whose stripped form differs from "CA" unchanged, because of the early return of
line 30; the lookup table of lines 32-42 is unreachable (its keys never strip to
"CA"), so the known-bad city names are NOT mapped to their corrected regions:
`correct_patient_state "Zug"` is "Zug", not "International", and
`correct_patient_state "Saipan"` is "Saipan", not "MP". -/
theorem C2_correct_patient_state_dead_table :
    (∀ s : String, correct_patient_state s = if pyStrip s = "CA" then ("CA") else s)
    ∧ correct_patient_state ("Zug") = "Zug"
    ∧ correct_patient_state ("Saipan") = "Saipan"
    ∧ correct_patient_state ("CA") = "CA" := by
  refine ⟨?_, by decide, by decide, by decide⟩
  intro s
  rw [correct_patient_state]
  by_cases h : pyStrip s = "CA"
  · rw [if_neg (by simp [h]), if_pos h, h]
    decide
  · rw [if_pos h, if_neg h]

/-- Claim C4 counterexample: with threshold 0 (hence ≤ 0) and the nested visits
(admit=1, discharge=30), (admit=5, discharge=10), both visits receive the same
episode id 1, refuting that every visit becomes its own episode when the
threshold is ≤ 0. -/
theorem C4_counterexample :
    (group_patient_records 0 [⟨1, 30⟩, ⟨5, 10⟩]).map Prod.snd = [1, 1]
    ∧ ¬ ((group_patient_records 0 [⟨1, 30⟩, ⟨5, 10⟩]).map Prod.snd).Nodup := by
  have h : group_patient_records 0 [⟨1, 30⟩, ⟨5, 10⟩] = [(⟨1, 30⟩, 1), (⟨5, 10⟩, 1)] := by
    rw [group_patient_records_eq_scan]
    decide
  rw [h]
  exact ⟨rfl, by decide⟩

/-- Claim C4 as amended: for every threshold t ≤ 0 the call is well-defined
(every input visit appears in the output, with a group id), and every visit
receives a distinct episode id PROVIDED each consecutive pair of admit-sorted
visits is separated by more than t days from the discharge of the earlier visit;
without that proviso overlapping visits may still share an episode id. -/
theorem C4_amended (t : Int) (l : List Visit) (ht : t ≤ 0) :
    ((group_patient_records t l).map Prod.fst).Perm l
    ∧ (sepCheck t (List.insertionSort visitLe l) = true →
        ((group_patient_records t l).map Prod.snd).Nodup) := by
  constructor
  · rw [group_patient_records_eq_scan, grpScan_fst]
    exact List.perm_insertionSort visitLe l
  · intro hsep
    rw [group_patient_records_eq_scan]
    cases hs : List.insertionSort visitLe l with
    | nil => simp [grpScan]
    | cons v vs =>
      rw [hs] at hsep
      rw [grpScan]
      simp only [List.map_cons]
      rw [sep_mergeScan_snd t vs v 1 hsep]
      have h := List.nodup_range' 1 (vs.length + 1)
      rw [List.range'_succ] at h
      exact h

/-- Witness for C4_amended at threshold 0 and two separated visits. -/
theorem C4_amended_witness :
    ((group_patient_records 0 [⟨0, 0⟩, ⟨5, 5⟩]).map Prod.fst).Perm [⟨0, 0⟩, ⟨5, 5⟩]
    ∧ ((group_patient_records 0 [⟨0, 0⟩, ⟨5, 5⟩]).map Prod.snd).Nodup :=
  ⟨(C4_amended 0 [⟨0, 0⟩, ⟨5, 5⟩] (by decide)).1,
   (C4_amended 0 [⟨0, 0⟩, ⟨5, 5⟩] (by decide)).2 (by decide)⟩

/-- Claim C6: the point-in-time occupancy filter keeps a reduced episode row iff
its episode start (the admit date of the row) is ≤ the chosen date and the
chosen date is ≤ its episode end (its group discharge date), both inclusive; an
episode spanning day 1 (Jan 1) to day 10 (Jan 10) is selected on day 5 and on
day 10 but not on day 0 (Dec 31). -/
theorem C6_filter_by_date_iff (rows : List ((Row × Nat) × Int)) (d : Int) :
    (∀ p : (Row × Nat) × Int,
      p ∈ filter_by_date rows d ↔ (p ∈ rows ∧ (p.1.1.admitDate ≤ d ∧ d ≤ p.2)))
    ∧ filter_by_date [((⟨1, 1, 10, "Inpatient", "CA"⟩, 1), 10)] 5
        = [((⟨1, 1, 10, "Inpatient", "CA"⟩, 1), 10)]
    ∧ filter_by_date [((⟨1, 1, 10, "Inpatient", "CA"⟩, 1), 10)] 10
        = [((⟨1, 1, 10, "Inpatient", "CA"⟩, 1), 10)]
    ∧ filter_by_date [((⟨1, 1, 10, "Inpatient", "CA"⟩, 1), 10)] 0 = [] := by
  refine ⟨?_, by decide, by decide, by decide⟩
  intro p
  rw [filter_by_date, List.mem_filter]
  simp only [Bool.and_eq_true, decide_eq_true_eq, ge_iff_le]

/-- Claim C7: for a fixed patient visit list, a larger gap threshold never
produces more distinct episode ids than a smaller one. -/
theorem C7_threshold_monotone (t1 t2 : Int) (l : List Visit) (h : t1 ≤ t2) :
    ((group_patient_records t2 l).map Prod.snd).toFinset.card
      ≤ ((group_patient_records t1 l).map Prod.snd).toFinset.card := by
  rw [group_patient_records_eq_scan, group_patient_records_eq_scan]
  cases hs : List.insertionSort visitLe l with
  | nil => rw [grpScan_card, grpScan_card]
  | cons v vs =>
    rw [grpScan_card, grpScan_card]
    show countNew (admitWithin t2) bumpEnd initEnd (initEnd v) vs + 1
      ≤ countNew (admitWithin t1) bumpEnd initEnd (initEnd v) vs + 1
    have := countNew_mono t1 t2 h vs (initEnd v) (initEnd v) le_rfl
    omega

/-- Witness for C7_threshold_monotone at thresholds 0 ≤ 1. -/
theorem C7_threshold_monotone_witness :
    ((group_patient_records 1 [⟨1, 5⟩, ⟨10, 12⟩]).map Prod.snd).toFinset.card
      ≤ ((group_patient_records 0 [⟨1, 5⟩, ⟨10, 12⟩]).map Prod.snd).toFinset.card :=
  C7_threshold_monotone 0 1 [⟨1, 5⟩, ⟨10, 12⟩] (by decide)

/-- Claim C8 counterexample: one patient with visits (admit=1, discharge=3) and
(admit=2, discharge=40), threshold 20.  The first pass yields one episode
spanning days 1 to 40.  The reduction keeps the earliest-admit representative
with its OWN discharge date 3, so re-grouping the reduced table with the same
threshold yields an episode spanning days 1 to 3: the episode end differs from
the first pass, refuting that re-grouping reproduces the same episode ends. -/
theorem C8_counterexample :
    episodeSpans 20 [⟨1, 3⟩, ⟨2, 40⟩] = [(1, 40)]
    ∧ reducedVisits 20 [⟨1, 3⟩, ⟨2, 40⟩] = [⟨1, 3⟩]
    ∧ episodeSpans 20 (reducedVisits 20 [⟨1, 3⟩, ⟨2, 40⟩]) = [(1, 3)]
    ∧ ((1 : Int), (40 : Int)) ≠ ((1 : Int), (3 : Int)) := by
  have hred : reducedVisits 20 [⟨1, 3⟩, ⟨2, 40⟩] = [⟨1, 3⟩] := by
    rw [reducedVisits_eq_scan]
    decide
  refine ⟨?_, hred, ?_, by decide⟩
  · rw [episodeSpans_eq_scan]
    decide
  · rw [hred, episodeSpans_eq_scan]
    decide

/-- Claim C8 as amended: re-grouping the reduced representative rows with the
same threshold reproduces the same NUMBER of episodes and the same episode
STARTS as the first pass (each representative becomes its own episode); the
second-pass episode ends are the own discharge dates of the representatives, which
can be earlier than the first-pass episode ends (see C8_counterexample). -/
theorem C8_amended (t : Int) (l : List Visit) :
    (episodeSpans t (reducedVisits t l)).length = (episodeSpans t l).length
    ∧ (episodeSpans t (reducedVisits t l)).map Prod.fst = (episodeSpans t l).map Prod.fst := by
  have hsorted : List.Sorted visitLe (List.insertionSort visitLe l) :=
    List.sorted_insertionSort visitLe l
  have hH : reducedVisits t l
      = (episodeBlocks (admitWithin t) bumpEnd initEnd
          (List.insertionSort visitLe l)).filterMap List.head? := rfl
  have hsub : (reducedVisits t l).Sublist (List.insertionSort visitLe l) := by
    rw [hH]
    exact episodeBlocks_heads_sublist (admitWithin t) bumpEnd initEnd _
  have hHsorted : List.Sorted visitLe (reducedVisits t l) := List.Pairwise.sublist hsub hsorted
  have hsort2 : List.insertionSort visitLe (reducedVisits t l) = reducedVisits t l :=
    hHsorted.insertionSort_eq
  have hsep : sepCheck t (reducedVisits t l) = true := by
    rw [hH]
    exact heads_sepCheck t _
  have hblocks2 : visitBlocks t (reducedVisits t l) = (reducedVisits t l).map (fun v => [v]) := by
    rw [visitBlocks, hsort2]
    exact sepCheck_blocks_singleton t _ hsep
  have hspans2 : episodeSpans t (reducedVisits t l)
      = (reducedVisits t l).map (fun h => (h.admitDate, h.dischargeDate)) := by
    rw [episodeSpans, hblocks2, List.filterMap_map]
    have hfm : (fun v : Visit =>
        (([v].head?).map (fun w => (w.admitDate, listMax ([v].map Visit.dischargeDate)))))
        = fun v : Visit => some (v.admitDate, v.dischargeDate) := by
      funext v
      rfl
    rw [show ((fun b : List Visit => b.head?.map
          (fun v => (v.admitDate, listMax (b.map Visit.dischargeDate)))) ∘ (fun v : Visit => [v]))
        = fun v : Visit => some (v.admitDate, v.dischargeDate) from hfm]
    exact filterMap_some_eq_map _ _
  have hne : ∀ b ∈ visitBlocks t l, b ≠ [] :=
    fun b hb => episodeBlocks_ne_nil (admitWithin t) bumpEnd initEnd _ b hb
  have hshape := blocks_spans_shape (visitBlocks t l) hne
  constructor
  · rw [hspans2, List.length_map, episodeSpans, hshape.2, hH]
    rfl
  · rw [hspans2, episodeSpans, hshape.1, List.map_map, hH]
    rfl

/-- Claim C9: `fill_missing_discharge_dates` keeps the number and order of rows
and acts on each row as follows: when the discharge date is null it becomes the
own admit date of the row for class "O", the sentinel 2050-01-01 for class "I", and
stays null for any other class; a non-null discharge date is unchanged; admit
date and class are never touched. -/
theorem C9_fill_missing_discharge_dates (rows : List VRow) :
    (fill_missing_discharge_dates rows).length = rows.length
    ∧ ∀ p : VRow × VRow, p ∈ rows.zip (fill_missing_discharge_dates rows) →
        (p.2.admitDate = p.1.admitDate ∧ p.2.patientClass = p.1.patientClass ∧
          p.2.dischargeDate =
            (if p.1.dischargeDate = none then
              (if p.1.patientClass = "O" then p.1.admitDate
                else if p.1.patientClass = "I" then some sentinel2050
                else none)
              else p.1.dischargeDate)) := by
  constructor
  · rw [fill_missing_discharge_dates]
    exact List.length_map _ _
  · intro p hp
    rw [fill_missing_discharge_dates] at hp
    have h2 := zip_map_snd _ rows p hp
    by_cases hd : p.1.dischargeDate = none
    · by_cases hO : p.1.patientClass = "O"
      · rw [h2]
        simp [hd, hO]
      · by_cases hI : p.1.patientClass = "I"
        · rw [h2]
          simp [hd, hO, hI]
        · rw [h2]
          simp [hd, hO, hI]
    · rw [h2]
      have hd2 : p.1.dischargeDate.isNone = false := by
        cases hopt : p.1.dischargeDate with
        | none => exact absurd hopt hd
        | some x => rfl
      rw [hd2]
      simp [hd]

/-- Witness for C9_fill_missing_discharge_dates: a class "O" row with null
discharge gets its admit date (day 5) as discharge. -/
theorem C9_fill_missing_discharge_dates_witness :
    (fill_missing_discharge_dates [⟨some 5, none, "O"⟩]).length = ([⟨some 5, none, "O"⟩] : List VRow).length
    ∧ ((⟨some 5, some 5, "O"⟩ : VRow).admitDate = (⟨some 5, none, "O"⟩ : VRow).admitDate
        ∧ (⟨some 5, some 5, "O"⟩ : VRow).patientClass = (⟨some 5, none, "O"⟩ : VRow).patientClass
        ∧ (⟨some 5, some 5, "O"⟩ : VRow).dischargeDate =
            (if (⟨some 5, none, "O"⟩ : VRow).dischargeDate = none then
              (if (⟨some 5, none, "O"⟩ : VRow).patientClass = "O" then (⟨some 5, none, "O"⟩ : VRow).admitDate
                else if (⟨some 5, none, "O"⟩ : VRow).patientClass = "I" then some sentinel2050
                else none)
              else (⟨some 5, none, "O"⟩ : VRow).dischargeDate)) :=
  ⟨(C9_fill_missing_discharge_dates [⟨some 5, none, "O"⟩]).1,
   (C9_fill_missing_discharge_dates [⟨some 5, none, "O"⟩]).2
     ((⟨some 5, none, "O"⟩ : VRow), (⟨some 5, some 5, "O"⟩ : VRow)) (by decide)⟩

/-- Claim C10 counterexample: a row with admit day 5, null discharge and patient
class "X" passes `load_data` with its discharge still null, and the grouper
silently assigns it episode id 1 — no error condition is raised anywhere in the
pipeline (the functions have no error channel), refuting that a null discharge
after normalization is reported rather than grouped. -/
theorem C10_counterexample :
    load_data [⟨some 5, none, "X"⟩] = [⟨some 5, none, "X"⟩]
    ∧ group_patient_records_na 20 (load_data [⟨some 5, none, "X"⟩])
        = [(⟨some 5, none, "X"⟩, 1)] := by
  have h1 : load_data [⟨some 5, none, "X"⟩] = [⟨some 5, none, "X"⟩] := by decide
  refine ⟨h1, ?_⟩
  rw [h1, group_patient_records_na_eq_scan]
  decide

/-- Claim C10 as amended: every visit with a null admit date is removed by
`load_data` before grouping (every surviving row has a non-null admit date);
a visit whose discharge is still null after normalization is NOT reported:
the grouper is total and silently assigns every row — null discharge included —
an episode id of at least 1. -/
theorem C10_amended (rows : List VRow) :
    (∀ r ∈ load_data rows, r.admitDate.isSome = true)
    ∧ ∀ t : Int,
        (group_patient_records_na t (load_data rows)).length = (load_data rows).length
        ∧ ∀ p ∈ group_patient_records_na t (load_data rows), 1 ≤ p.2 := by
  constructor
  · intro r hr
    rw [load_data, fill_missing_discharge_dates] at hr
    obtain ⟨r0, hr0, rfl⟩ := List.mem_map.mp hr
    have hmem := List.mem_filter.mp hr0
    split
    · exact hmem.2
    · split
      · exact hmem.2
      · exact hmem.2
  · intro t
    constructor
    · rw [group_patient_records_na_eq_scan]
      have h1 := grpScan_fst (vrCond t) vrUpd vrInit
        (List.insertionSort (fun a b => vrAdmitLe a b = true) (load_data rows))
      have h2 := congrArg List.length h1
      rw [List.length_map] at h2
      rw [h2]
      exact (List.perm_insertionSort _ _).length_eq
    · intro p hp
      rw [group_patient_records_na_eq_scan] at hp
      cases hs : List.insertionSort (fun a b => vrAdmitLe a b = true) (load_data rows) with
      | nil =>
        rw [hs, grpScan] at hp
        simp at hp
      | cons v vs =>
        rw [hs, grpScan] at hp
        rcases List.mem_cons.mp hp with rfl | hp'
        · exact le_refl 1
        · exact mergeScan_snd_ge (vrCond t) vrUpd vrInit vs 1 (vrInit v) p hp'

/-- Witness for C10_amended: a null-admit row is dropped, the survivor keeps a
non-null admit, and the null-discharge survivor is grouped with id 1. -/
theorem C10_amended_witness :
    ((⟨some 5, none, "X"⟩ : VRow).admitDate.isSome = true)
    ∧ (group_patient_records_na 20 (load_data [⟨none, some 3, "I"⟩, ⟨some 5, none, "X"⟩])).length
        = (load_data [⟨none, some 3, "I"⟩, ⟨some 5, none, "X"⟩]).length
    ∧ 1 ≤ (((⟨some 5, none, "X"⟩, 1)) : VRow × Nat).2 :=
  ⟨(C10_amended [⟨none, some 3, "I"⟩, ⟨some 5, none, "X"⟩]).1 ⟨some 5, none, "X"⟩ (by decide),
   ((C10_amended [⟨none, some 3, "I"⟩, ⟨some 5, none, "X"⟩]).2 20).1,
   ((C10_amended [⟨none, some 3, "I"⟩, ⟨some 5, none, "X"⟩]).2 20).2
     (⟨some 5, none, "X"⟩, 1)
     (by rw [group_patient_records_na_eq_scan]; decide)⟩

/-- Claim C3 failing input: patient 1 has a CA Inpatient visit (admit 1,
discharge 10) and a CA Outpatient visit (admit 100, discharge 100).  The
inpatient episode gets per-patient group id 1 and the outpatient singleton gets
frame-wide number 1 as well, so both rows share the groupby key (mrn 1, group
1): the reduction collapses them into a single row whose Group Discharge Date
100 comes from the outpatient visit — the outpatient visit does not survive as
its own singleton episode, contradicting the claim that such rows are never
combined with a same-patient inpatient episode. -/
theorem C3_singleton_collision :
    df_result [⟨1, 1, 10, "Inpatient", "CA"⟩, ⟨1, 100, 100, "Outpatient", "CA"⟩]
      = [((⟨1, 1, 10, "Inpatient", "CA"⟩, 1), 100)]
    ∧ (df_result [⟨1, 1, 10, "Inpatient", "CA"⟩, ⟨1, 100, 100, "Outpatient", "CA"⟩]).length = 1 := by
  have hp : pipeline_grouped [⟨1, 1, 10, "Inpatient", "CA"⟩, ⟨1, 100, 100, "Outpatient", "CA"⟩]
      = [(⟨1, 1, 10, "Inpatient", "CA"⟩, 1), (⟨1, 100, 100, "Outpatient", "CA"⟩, 1)] := by
    rw [pipeline_grouped]
    simp only [groupby_apply, group_patient_records_row_eq_scan]
    decide
  have hd : df_result [⟨1, 1, 10, "Inpatient", "CA"⟩, ⟨1, 100, 100, "Outpatient", "CA"⟩]
      = [((⟨1, 1, 10, "Inpatient", "CA"⟩, 1), 100)] := by
    rw [df_result, hp]
    decide
  exact ⟨hd, by rw [hd]; rfl⟩

/-! ### Helper lemmas for the reduction claim -/

theorem find?_isSome_of_mem {β : Type} (p : β → Bool) :
    ∀ (l : List β) (x : β), x ∈ l → p x = true → ∃ b, l.find? p = some b := by
  intro l
  induction l with
  | nil => intro x hx; simp at hx
  | cons a as ih =>
    intro x hx hpx
    by_cases hpa : p a = true
    · exact ⟨a, by simp [List.find?_cons, hpa]⟩
    · rcases List.mem_cons.mp hx with rfl | hx'
      · exact absurd hpx hpa
      · obtain ⟨b, hb⟩ := ih x hx' hpx
        exact ⟨b, by simp [List.find?_cons, hpa, hb]⟩

theorem find?_min_of_pairwise {β : Type} {r : β → β → Prop} :
    ∀ (l : List β), l.Pairwise r → ∀ (p : β → Bool) (b : β), l.find? p = some b →
      ∀ y ∈ l, p y = true → b = y ∨ r b y := by
  intro l
  induction l with
  | nil => intro _ p b hb; simp at hb
  | cons a as ih =>
    intro hpw p b hb y hy hpy
    rw [List.pairwise_cons] at hpw
    by_cases hpa : p a = true
    · have hba : b = a := by
        rw [List.find?_cons, hpa] at hb
        exact (Option.some.inj hb).symm
      subst hba
      rcases List.mem_cons.mp hy with rfl | hy'
      · exact Or.inl rfl
      · exact Or.inr (hpw.1 y hy')
    · have hb' : as.find? p = some b := by
        have hpaf : p a = false := by simpa using hpa
        rw [List.find?_cons, hpaf] at hb
        exact hb
      rcases List.mem_cons.mp hy with rfl | hy'
      · exact absurd hpy hpa
      · exact ih hpw.2 p b hb' y hy' hpy

theorem filterMap_key_unique {κ β : Type} [DecidableEq κ] (keyOf : β → κ) (f : κ → Option β)
    (hf : ∀ k b, f k = some b → keyOf b = k) :
    ∀ (ks : List κ), ks.Nodup → ∀ k ∈ ks,
      (ks.filterMap f).filter (fun b => decide (keyOf b = k)) = (f k).toList := by
  intro ks
  induction ks with
  | nil => intro _ k hk; simp at hk
  | cons k' ks' ih =>
    intro hnd k hk
    rw [List.nodup_cons] at hnd
    rw [List.filterMap_cons]
    rcases List.mem_cons.mp hk with rfl | hk'
    · have hrest : (ks'.filterMap f).filter (fun b => decide (keyOf b = k)) = [] := by
        rw [List.filter_eq_nil_iff]
        intro b hb
        obtain ⟨k2, hk2, hfk2⟩ := List.mem_filterMap.mp hb
        have hkb := hf k2 b hfk2
        simp only [decide_eq_true_eq]
        intro hEq
        exact hnd.1 (by rw [← hEq, hkb]; exact hk2)
      cases hfk : f k with
      | none => simp [hrest]
      | some b =>
        have hkb := hf k b hfk
        simp [List.filter_cons, hkb, hrest]
    · have hkk : k' ≠ k := fun h => hnd.1 (h ▸ hk')
      cases hfk : f k' with
      | none =>
        simpa using ih hnd.2 k hk'
      | some b =>
        have hkb := hf k' b hfk
        have hne : decide (keyOf b = k) = false := by
          simp [hkb, hkk]
        simp only [List.filter_cons, hne]
        simpa using ih hnd.2 k hk'

theorem addGroupDischarge_fst (rows : List (Row × Nat)) :
    (addGroupDischarge rows).map Prod.fst = rows := by
  rw [addGroupDischarge, List.map_map]
  show List.map (fun p => p) rows = rows
  exact List.map_id rows

/-- Claim C5: for every grouped table, the reduction produces exactly one row
per (patient id, episode id) key present in the table; that row carries a
member visit of the group of the key whose admit date is minimal among the members,
and its attached Group Discharge Date equals the maximum discharge date over
all member rows of that group. -/
theorem C5_reduce_one_row_per_episode (rows : List (Row × Nat)) (k : Nat × Nat)
    (hk : k ∈ rows.map rkey) :
    ((reduceRows (addGroupDischarge rows)).filter (fun p => decide (rkey p.1 = k))).length = 1
    ∧ ∀ p ∈ reduceRows (addGroupDischarge rows), rkey p.1 = k →
        (p.1 ∈ rows.filter (fun q => decide (rkey q = k))
          ∧ (∀ q ∈ rows.filter (fun q => decide (rkey q = k)), p.1.1.admitDate ≤ q.1.admitDate)
          ∧ p.2 = listMax ((rows.filter (fun q => decide (rkey q = k))).map
              (fun q => q.1.dischargeDate))) := by
  have hperm : (List.insertionSort redLe (addGroupDischarge rows)).Perm (addGroupDischarge rows) :=
    List.perm_insertionSort redLe (addGroupDischarge rows)
  have hsorted : (List.insertionSort redLe (addGroupDischarge rows)).Pairwise redLe :=
    List.sorted_insertionSort redLe (addGroupDischarge rows)
  obtain ⟨q0, hq0, hq0k⟩ := List.mem_map.mp hk
  have hforward : ∀ q ∈ rows,
      (q, listMax ((rows.filter (fun q2 => decide (rkey q2 = rkey q))).map
        (fun q2 => q2.1.dischargeDate))) ∈ List.insertionSort redLe (addGroupDischarge rows) := by
    intro q hq
    rw [hperm.mem_iff, addGroupDischarge]
    exact List.mem_map.mpr ⟨q, hq, rfl⟩
  have hF : ∀ (k2 : Nat × Nat) (b : (Row × Nat) × Int),
      (List.insertionSort redLe (addGroupDischarge rows)).find?
          (fun p => decide (rkey p.1 = k2)) = some b →
        rkey b.1 = k2 := by
    intro k2 b hb
    have h := List.find?_some hb
    exact of_decide_eq_true h
  have hkks : k ∈ ((List.insertionSort redLe (addGroupDischarge rows)).map
      (fun p => rkey p.1)).dedup := by
    rw [List.mem_dedup, List.mem_map]
    exact ⟨(q0, listMax ((rows.filter (fun q2 => decide (rkey q2 = rkey q0))).map
      (fun q2 => q2.1.dischargeDate))), hforward q0 hq0, hq0k⟩
  have hFk : ∃ b, (List.insertionSort redLe (addGroupDischarge rows)).find?
      (fun p => decide (rkey p.1 = k)) = some b :=
    find?_isSome_of_mem (fun p => decide (rkey p.1 = k)) _ _
      (hforward q0 hq0) (decide_eq_true hq0k)
  constructor
  · have heq := filterMap_key_unique (fun p : (Row × Nat) × Int => rkey p.1)
      (fun k2 => (List.insertionSort redLe (addGroupDischarge rows)).find?
        (fun p => decide (rkey p.1 = k2))) hF
      ((List.insertionSort redLe (addGroupDischarge rows)).map (fun p => rkey p.1)).dedup
      (List.nodup_dedup _) k hkks
    rw [reduceRows, heq]
    obtain ⟨b, hb⟩ := hFk
    simp only [hb]
    rfl
  · intro p hp hpk
    rw [reduceRows] at hp
    obtain ⟨k2, hk2, hFk2⟩ := List.mem_filterMap.mp hp
    have h1 := hF k2 p hFk2
    have hk2k : k2 = k := by rw [← h1, hpk]
    rw [hk2k] at hFk2
    have hpS : p ∈ List.insertionSort redLe (addGroupDischarge rows) :=
      List.mem_of_find?_eq_some hFk2
    have hpA : p ∈ addGroupDischarge rows := hperm.mem_iff.mp hpS
    rw [addGroupDischarge] at hpA
    obtain ⟨q, hq, hq2⟩ := List.mem_map.mp hpA
    have hp1 : p.1 = q := by rw [← hq2]
    have hrk : rkey q = k := by rw [← hp1]; exact hF k p hFk2
    refine ⟨?_, ?_, ?_⟩
    · rw [List.mem_filter]
      exact ⟨by rw [hp1]; exact hq, decide_eq_true (hF k p hFk2)⟩
    · intro q' hq'
      rw [List.mem_filter] at hq'
      have hq'k : rkey q' = k := of_decide_eq_true hq'.2
      have hq'S := hforward q' hq'.1
      have hmin := find?_min_of_pairwise _ hsorted (fun p => decide (rkey p.1 = k)) p hFk2
        _ hq'S (decide_eq_true hq'k)
      rcases hmin with heq | hle
      · rw [heq]
      · have e1 : rkey p.1 = rkey q' := by rw [hF k p hFk2, hq'k]
        have hk1 : p.1.1.mrn = q'.1.mrn := congrArg (Prod.fst : Nat × Nat → Nat) e1
        have hk2' : p.1.2 = q'.2 := congrArg (Prod.snd : Nat × Nat → Nat) e1
        simp only [redLe] at hle
        omega
    · have hgdd : p.2 = listMax ((rows.filter (fun q2 => decide (rkey q2 = rkey q))).map
          (fun q2 => q2.1.dischargeDate)) := by rw [← hq2]
      rw [hgdd, hrk]

/-- Witness for C5_reduce_one_row_per_episode: two rows of patient 7 in group 1. -/
theorem C5_reduce_one_row_per_episode_witness :
    ((reduceRows (addGroupDischarge [(⟨7, 1, 10, "Inpatient", "CA"⟩, 1),
          (⟨7, 3, 50, "Inpatient", "CA"⟩, 1)])).filter
        (fun p => decide (rkey p.1 = (7, 1)))).length = 1
    ∧ ∀ p ∈ reduceRows (addGroupDischarge [(⟨7, 1, 10, "Inpatient", "CA"⟩, 1),
          (⟨7, 3, 50, "Inpatient", "CA"⟩, 1)]), rkey p.1 = (7, 1) →
        (p.1 ∈ [(⟨7, 1, 10, "Inpatient", "CA"⟩, 1),
            (⟨7, 3, 50, "Inpatient", "CA"⟩, 1)].filter (fun q => decide (rkey q = (7, 1)))
          ∧ (∀ q ∈ [(⟨7, 1, 10, "Inpatient", "CA"⟩, 1),
              (⟨7, 3, 50, "Inpatient", "CA"⟩, 1)].filter (fun q => decide (rkey q = (7, 1))),
              p.1.1.admitDate ≤ q.1.admitDate)
          ∧ p.2 = listMax (([(⟨7, 1, 10, "Inpatient", "CA"⟩, 1),
              (⟨7, 3, 50, "Inpatient", "CA"⟩, 1)].filter (fun q => decide (rkey q = (7, 1)))).map
                (fun q => q.1.dischargeDate))) :=
  C5_reduce_one_row_per_episode
    [(⟨7, 1, 10, "Inpatient", "CA"⟩, 1), (⟨7, 3, 50, "Inpatient", "CA"⟩, 1)] (7, 1) (by decide)
